import Mathlib

/-!
Verification of the incremental line-alignment synchronizer and the
dual-cadence engine of `get-livecaptions-rs` (`src/main.rs`).

The pure diff algorithm `extract_new_lines` is embedded directly from the
source.  Rust's `str::lines` is modelled by `rustLines` (split inclusively on
the newline character, then strip a trailing newline and, when one was
stripped, a carriage return preceding it), and `str::trim` by `rustTrim`
over the Unicode White_Space set.  The stateful methods
`Engine::save_current_captions` and `Engine::translate_new_content` are
embedded as explicit state-passing functions whose fallible external calls
(file operations, the translation request) are supplied as explicit outcome
parameters.
-/

/-- Code points of the Unicode White_Space property, the set recognised by
Rust's `char::is_whitespace` (used via `str::trim`). -/
def rustWhitespaceCodes : List Nat :=
  [0x09, 0x0A, 0x0B, 0x0C, 0x0D, 0x20, 0x85, 0xA0, 0x1680,
   0x2000, 0x2001, 0x2002, 0x2003, 0x2004, 0x2005, 0x2006, 0x2007,
   0x2008, 0x2009, 0x200A, 0x2028, 0x2029, 0x202F, 0x205F, 0x3000]

/-- Model of Rust's `char::is_whitespace`. -/
def rustIsWhitespace (c : Char) : Bool :=
  rustWhitespaceCodes.contains c.toNat

/-- Model of Rust's `str::trim`: remove leading and trailing whitespace. -/
def rustTrim (s : String) : String :=
  String.mk (((s.toList.dropWhile rustIsWhitespace).reverse.dropWhile
      rustIsWhitespace).reverse)

/-- Model of Rust's `str::split_inclusive('\n')`: each piece keeps its
terminating newline; the final piece may lack one; the empty string has no
pieces. -/
def splitInclNl : List Char → List (List Char)
  | [] => []
  | c :: cs =>
    if c = '\n' then [c] :: splitInclNl cs
    else
      match splitInclNl cs with
      | [] => [[c]]
      | seg :: rest => (c :: seg) :: rest

/-- Model of the per-line map of Rust's `str::lines`: strip one trailing
newline, and when it was present also one carriage return right before it. -/
def rustLineMap (seg : List Char) : List Char :=
  match seg.reverse with
  | '\n' :: '\r' :: rest => rest.reverse
  | '\n' :: rest => rest.reverse
  | _ => seg

/-- Model of Rust's `str::lines` (the `.lines().collect()` calls in
`extract_new_lines`). -/
def rustLines (s : String) : List String :=
  (splitInclNl s.toList).map (fun seg => String.mk (rustLineMap seg))

/-- Length of the longest common prefix of two line sequences: the inner
matching loop of `extract_new_lines` (count consecutive equal lines from a
start position, stop at the first mismatch or either end). -/
def commonPrefixLen : List String → List String → Nat
  | x :: xs, y :: ys => if x = y then commonPrefixLen xs ys + 1 else 0
  | _, _ => 0

/-- The scan over all start positions of `previous` in `extract_new_lines`
(`for start_idx in 0..prev_lines.len()`), keeping the maximum run of
consecutive matches against the start of `current`. -/
def bestMatchLen : List String → List String → Nat
  | [], _ => 0
  | x :: xs, ys => max (commonPrefixLen (x :: xs) ys) (bestMatchLen xs ys)

/-- Embedding of the standalone Rust function `extract_new_lines`
(src/main.rs lines 158-211), clause by clause. -/
def extract_new_lines (previous current : String) : String :=
  if previous = "" then current
  else
    let prev_lines := rustLines previous
    let curr_lines := rustLines current
    if prev_lines = [] then current
    else
      let best := bestMatchLen prev_lines curr_lines
      if 0 < best then
        if best < curr_lines.length then
          let new_content := String.intercalate "\n" (curr_lines.drop best)
          if new_content = "" then new_content else new_content ++ "\n"
        else ""
      else current

/-- The mutable part of `Engine` (src/main.rs lines 35-41).  The COM
automation handles are external resources and are not part of the
synchronizer state; `sfilename` only routes the file open. -/
structure EngineState where
  prebuffer : String
  translate_buffer : String
  sfilename : String
deriving DecidableEq

/-- Outcomes of the five fallible file operations performed by
`Engine::save_current_captions` (open, the timestamp `writeln!`, the two
`write_all` calls, `sync_all`), each abbreviated by `?` in the source. -/
structure WriteOps where
  openOk : Bool
  writeHeaderOk : Bool
  writeContentOk : Bool
  writeNewlineOk : Bool
  syncOk : Bool
deriving DecidableEq

/-- Embedding of `Engine::save_current_captions` (src/main.rs lines
102-126).  `capture` is the result of `get_livecaptions()` (`none` = `Err`,
skipped by `if let Ok`); `ts` is the formatted timestamp; `ops` gives each
file operation's outcome.  Returns the new state, the list of chunks
appended to the file before any failure, and whether the method returned
`Ok`.  A failed operation returns early, so `prebuffer` is only assigned on
the all-successful path (or when the delta is blank and nothing is
written). -/
def save_current_captions (st : EngineState) (capture : Option String)
    (ts : String) (ops : WriteOps) : EngineState × List String × Bool :=
  match capture with
  | none => (st, [], true)
  | some current_text =>
    let new_content := extract_new_lines st.prebuffer current_text
    if new_content ≠ "" ∧ rustTrim new_content ≠ "" then
      if ops.openOk then
        if ops.writeHeaderOk then
          if ops.writeContentOk then
            if ops.writeNewlineOk then
              if ops.syncOk then
                (⟨current_text, st.translate_buffer, st.sfilename⟩,
                 [ts ++ "\n", new_content, "\n"], true)
              else (st, [ts ++ "\n", new_content, "\n"], false)
            else (st, [ts ++ "\n", new_content], false)
          else (st, [ts ++ "\n"], false)
        else (st, [], false)
      else (st, [], false)
    else (⟨current_text, st.translate_buffer, st.sfilename⟩, [], true)

/-- Embedding of `Engine::translate_new_content` (src/main.rs lines
87-100).  `capture` is the result of `get_livecaptions()`; `tr` is the
result of the external `translate_text` call (`none` = `Err`, propagated by
`?` before the buffer assignment).  Returns the new state, the emitted
translation (`eprintln!`) if any, and whether the method returned `Ok`. -/
def translate_new_content (st : EngineState) (capture : Option String)
    (tr : Option String) : EngineState × Option String × Bool :=
  match capture with
  | none => (st, none, true)
  | some current_text =>
    let new_content := extract_new_lines st.translate_buffer current_text
    if new_content ≠ "" ∧ rustTrim new_content ≠ "" then
      match tr with
      | none => (st, none, false)
      | some translated =>
        (⟨st.prebuffer, current_text, st.sfilename⟩, some translated, true)
    else (⟨st.prebuffer, current_text, st.sfilename⟩, none, true)

/-- Modelled from the spec: the repository's second near-duplicate program
variant is absent from src/ (§2 counts ~515 lines over two variants; src/
holds only one).  Per §6 its command line adds, to the required output path
and the optional translation options, an optional persistence interval in
minutes bounded to a small positive range; per §4.2 the slow cadence's long
interval is configurable by it. -/
structure ArgsWithInterval where
  file : String
  translate : Option String
  translate_host : String
  interval : Option Nat
deriving DecidableEq

/-- Modelled from the spec: the upper bound of the "small positive range"
of accepted interval values, in minutes (the exact value is not fixed by
the spec; only smallness and positivity are). -/
def intervalRangeMax : Nat := 5

/-- Modelled from the spec: configuration-time validation of the optional
interval — accepted exactly when within the small positive range. -/
def intervalAccepted (m : Nat) : Bool :=
  decide (1 ≤ m) && decide (m ≤ intervalRangeMax)

/-- Modelled from the spec: the slow (persistence) cadence's tick interval
in seconds, configured by the optional interval in minutes (one minute
when absent, matching the fixed 60 s of the variant under src/). -/
def writefileTimerSecs (a : ArgsWithInterval) : Nat :=
  60 * (a.interval.getD 1)

/-- The embedding reproduces the repository's unit tests of
`extract_new_lines` (src/tests.rs): first run, normal accumulation, no new
content, complete truncation, partial overlap, mismatched-suffix overlap,
and multiple new lines. -/
theorem extract_new_lines_matches_repo_tests :
    extract_new_lines "" "Hello world\nThis is new" = "Hello world\nThis is new" ∧
    extract_new_lines "Hello world\nThis is existing"
      "Hello world\nThis is existing\nThis is new line" = "This is new line\n" ∧
    extract_new_lines "Hello world\nSame text" "Hello world\nSame text" = "" ∧
    extract_new_lines "Old content\nThat is gone" "Completely new\nDifferent text"
      = "Completely new\nDifferent text" ∧
    extract_new_lines "Line 1\nLine 2\nLine 3" "Line 2\nLine 3\nLine 4\nLine 5"
      = "Line 4\nLine 5\n" ∧
    extract_new_lines "Line 1\nLine 2\nLine 3" "Line 2\nLine 3 Line 3\nLine 4\nLine 5"
      = "Line 3 Line 3\nLine 4\nLine 5\n" ∧
    extract_new_lines "\n\n" "New content here" = "New content here" ∧
    extract_new_lines "First line" "First line\nSecond line\nThird line\nFourth line"
      = "Second line\nThird line\nFourth line\n" := by
  decide

/-- Sanity facts of the `str::lines` and `str::trim` models: a trailing
line terminator yields no extra line, an empty line between terminators is
a line, a carriage return is stripped only before a terminator, and a
whitespace-only string trims to empty. -/
theorem rustLines_rustTrim_model_facts :
    rustLines "a\n\n" = ["a", ""] ∧ rustLines "\n" = [""] ∧
    rustLines "a\r\nb\r" = ["a", "b\r"] ∧ rustTrim " \n" = "" := by
  decide

theorem splitInclNl_ne_nil (c : Char) (cs : List Char) : splitInclNl (c :: cs) ≠ [] := by
  simp only [splitInclNl]
  split
  · exact List.cons_ne_nil _ _
  · split
    · exact List.cons_ne_nil _ _
    · exact List.cons_ne_nil _ _

theorem rustLines_ne_nil (s : String) (h : s ≠ "") : rustLines s ≠ [] := by
  obtain ⟨data⟩ := s
  cases data with
  | nil => exact absurd rfl h
  | cons c cs =>
    have hne := splitInclNl_ne_nil c cs
    simp only [rustLines, String.toList]
    intro hmap
    exact hne (List.map_eq_nil_iff.mp hmap)

theorem commonPrefixLen_le_length (xs : List String) :
    ∀ ys, commonPrefixLen xs ys ≤ xs.length := by
  induction xs with
  | nil => intro ys; simp [commonPrefixLen]
  | cons x xs ih =>
    intro ys
    cases ys with
    | nil => simp [commonPrefixLen]
    | cons y ys =>
      simp only [commonPrefixLen, List.length_cons]
      split
      · exact Nat.succ_le_succ (ih ys)
      · exact Nat.zero_le _

theorem commonPrefixLen_self_append (xs ys : List String) :
    commonPrefixLen xs (xs ++ ys) = xs.length := by
  induction xs with
  | nil => simp [commonPrefixLen]
  | cons x xs ih => simp [commonPrefixLen, ih]

theorem bestMatchLen_le_length (xs : List String) :
    ∀ ys, bestMatchLen xs ys ≤ xs.length := by
  induction xs with
  | nil => intro ys; simp [bestMatchLen]
  | cons x xs ih =>
    intro ys
    simp only [bestMatchLen, List.length_cons]
    exact max_le (commonPrefixLen_le_length _ _) (Nat.le_succ_of_le (ih ys))

theorem bestMatchLen_self_append (xs ys : List String) (h : xs ≠ []) :
    bestMatchLen xs (xs ++ ys) = xs.length := by
  cases xs with
  | nil => exact absurd rfl h
  | cons x xs =>
    simp only [bestMatchLen]
    rw [commonPrefixLen_self_append]
    exact Nat.max_eq_left
      (Nat.le_succ_of_le (bestMatchLen_le_length xs ((x :: xs) ++ ys)))

theorem bestMatchLen_eq_zero (ps cs : List String) (h : ∀ l ∈ cs, l ∉ ps) :
    bestMatchLen ps cs = 0 := by
  induction ps with
  | nil => simp [bestMatchLen]
  | cons p ps ih =>
    simp only [bestMatchLen]
    have h1 : commonPrefixLen (p :: ps) cs = 0 := by
      cases cs with
      | nil => simp [commonPrefixLen]
      | cons c cs' =>
        have hc : c ∉ p :: ps := h c (List.mem_cons_self c cs')
        have hpc : ¬p = c := by
          intro he
          exact hc (by rw [← he]; exact List.mem_cons_self p ps)
        simp [commonPrefixLen, hpc]
    have h2 : bestMatchLen ps cs = 0 :=
      ih (fun l hl hp => h l hl (List.mem_cons_of_mem p hp))
    simp [h1, h2]

theorem extract_new_lines_eq (p c : String) (hp : p ≠ "") (hL : rustLines p ≠ []) :
    extract_new_lines p c =
      (if 0 < bestMatchLen (rustLines p) (rustLines c) then
        if bestMatchLen (rustLines p) (rustLines c) < (rustLines c).length then
          (if String.intercalate "\n"
              ((rustLines c).drop (bestMatchLen (rustLines p) (rustLines c))) = "" then
            String.intercalate "\n"
              ((rustLines c).drop (bestMatchLen (rustLines p) (rustLines c)))
          else
            String.intercalate "\n"
              ((rustLines c).drop (bestMatchLen (rustLines p) (rustLines c))) ++ "\n")
        else ""
      else c) := by
  simp only [extract_new_lines, if_neg hp, if_neg hL]

/-- Claim C5: for every non-empty `current` and empty `previous`,
`extract_new_lines previous current` returns `current` unchanged — the
entire `current` is new on first observation, with no trailing terminator
added. -/
theorem extract_first_observation (current : String) (h : current ≠ "") :
    extract_new_lines "" current = current := by
  simp [extract_new_lines]

theorem extract_first_observation_witness :
    ("Hello world\nThis is new" : String) ≠ "" ∧
      extract_new_lines "" "Hello world\nThis is new" = "Hello world\nThis is new" :=
  ⟨by decide, extract_first_observation "Hello world\nThis is new" (by decide)⟩

/-- Claim C6: for every non-empty `current`,
`extract_new_lines current current` is the empty string — diffing a
snapshot against itself yields no new content. -/
theorem extract_self_empty (current : String) (h : current ≠ "") :
    extract_new_lines current current = "" := by
  have hL : rustLines current ≠ [] := rustLines_ne_nil current h
  have hbest : bestMatchLen (rustLines current) (rustLines current)
      = (rustLines current).length := by
    have h2 := bestMatchLen_self_append (rustLines current) [] hL
    simpa using h2
  rw [extract_new_lines_eq current current h hL, hbest]
  simp [List.length_pos.mpr hL]

theorem extract_self_empty_witness :
    ("Hello world\nSame text" : String) ≠ "" ∧
      extract_new_lines "Hello world\nSame text" "Hello world\nSame text" = "" :=
  ⟨by decide, extract_self_empty "Hello world\nSame text" (by decide)⟩

/-- Claim C7: for every non-empty `previous` and every `current` such that
no line of `current` equals any line of `previous`,
`extract_new_lines previous current` returns the full `current` as new
(truncation/reset case, overlap length zero). -/
theorem extract_truncation_reset (p c : String) (hp : p ≠ "")
    (h : ∀ l ∈ rustLines c, l ∉ rustLines p) :
    extract_new_lines p c = c := by
  have hL := rustLines_ne_nil p hp
  rw [extract_new_lines_eq p c hp hL, bestMatchLen_eq_zero _ _ h]
  simp

theorem extract_truncation_reset_witness :
    ("Old content\nThat is gone" : String) ≠ "" ∧
      extract_new_lines "Old content\nThat is gone" "Completely new\nDifferent text"
        = "Completely new\nDifferent text" :=
  ⟨by decide, extract_truncation_reset "Old content\nThat is gone"
    "Completely new\nDifferent text" (by decide) (by decide)⟩

/-- Claim C4 (amended): for every non-empty `current1` and every `current2`
obtained from `current1` by appending exactly one additional non-empty
line, `extract_new_lines current1 current2` equals that one added line
followed by a trailing line terminator.  (When the appended line is the
empty line, the code returns the empty string instead — see the
counterexample.) -/
theorem extract_append_one_line (c1 c2 l : String) (h1 : c1 ≠ "")
    (h2 : rustLines c2 = rustLines c1 ++ [l]) (h3 : l ≠ "") :
    extract_new_lines c1 c2 = l ++ "\n" := by
  have hL : rustLines c1 ≠ [] := rustLines_ne_nil c1 h1
  have hbest : bestMatchLen (rustLines c1) (rustLines c2) = (rustLines c1).length := by
    rw [h2]; exact bestMatchLen_self_append _ _ hL
  have hlen : (rustLines c2).length = (rustLines c1).length + 1 := by
    rw [h2]; simp
  have hdrop : (rustLines c2).drop ((rustLines c1).length) = [l] := by
    rw [h2]; exact List.drop_left _ _
  have hone : String.intercalate "\n" [l] = l := rfl
  rw [extract_new_lines_eq c1 c2 h1 hL, hbest, hdrop, hlen, hone]
  simp [List.length_pos.mpr hL, Nat.lt_succ_self, h3]

/-- The counterexample forcing the C4 amendment: appending the empty line
yields the empty string, not the empty line plus a terminator. -/
theorem extract_append_one_line_cex :
    ("b" : String) ≠ "" ∧ rustLines "b\n\n" = rustLines "b" ++ [""] ∧
      extract_new_lines "b" "b\n\n" ≠ "" ++ "\n" := by
  decide

theorem extract_append_one_line_witness :
    ("First line" : String) ≠ "" ∧
      rustLines "First line\nSecond line" = rustLines "First line" ++ ["Second line"] ∧
      extract_new_lines "First line" "First line\nSecond line" = "Second line" ++ "\n" :=
  ⟨by decide, by decide,
    extract_append_one_line "First line" "First line\nSecond line" "Second line"
      (by decide) (by decide) (by decide)⟩

/-- Claim C3 (amended): whenever the best overlap length `k` satisfies
`0 < k < (number of lines of current)`, `extract_new_lines previous
current` equals the lines of `current` from index `k` onward rejoined with
line terminators with a trailing terminator appended when that rejoined
text is non-empty (when the suffix is the single empty line the result is
the empty string — see the counterexample); if the result is non-empty it
ends with a terminator.  In particular the spec's interior-overlap example
evaluates to "Line 4\nLine 5\n" (see the witness). -/
theorem extract_interior_overlap (p c : String)
    (h1 : 0 < bestMatchLen (rustLines p) (rustLines c))
    (h2 : bestMatchLen (rustLines p) (rustLines c) < (rustLines c).length) :
    extract_new_lines p c =
      (if String.intercalate "\n"
          ((rustLines c).drop (bestMatchLen (rustLines p) (rustLines c))) = "" then ""
       else String.intercalate "\n"
          ((rustLines c).drop (bestMatchLen (rustLines p) (rustLines c))) ++ "\n") ∧
    (extract_new_lines p c ≠ "" → ∃ t, extract_new_lines p c = t ++ "\n") := by
  have hL : rustLines p ≠ [] := by
    intro hnil
    rw [hnil] at h1
    simp [bestMatchLen] at h1
  have hp : p ≠ "" := by
    intro hpe
    rw [hpe] at hL
    exact hL rfl
  have he := extract_new_lines_eq p c hp hL
  rw [if_pos h1, if_pos h2] at he
  constructor
  · rw [he]
    by_cases hj : String.intercalate "\n"
        ((rustLines c).drop (bestMatchLen (rustLines p) (rustLines c))) = ""
    · rw [if_pos hj, if_pos hj, hj]
    · rw [if_neg hj, if_neg hj]
  · intro hne
    rw [he] at hne ⊢
    by_cases hj : String.intercalate "\n"
        ((rustLines c).drop (bestMatchLen (rustLines p) (rustLines c))) = ""
    · rw [if_pos hj] at hne
      exact absurd hj hne
    · rw [if_neg hj]
      exact ⟨_, rfl⟩

/-- The counterexample forcing the C3 amendment: with `k = 1` and two
current lines whose suffix is the single empty line, the code returns the
empty string, not the rejoined suffix with a terminator appended. -/
theorem extract_interior_overlap_cex :
    0 < bestMatchLen (rustLines "a") (rustLines "a\n\n") ∧
      bestMatchLen (rustLines "a") (rustLines "a\n\n") < (rustLines "a\n\n").length ∧
      extract_new_lines "a" "a\n\n" ≠
        String.intercalate "\n" ((rustLines "a\n\n").drop
          (bestMatchLen (rustLines "a") (rustLines "a\n\n"))) ++ "\n" := by
  decide

theorem extract_interior_overlap_witness :
    0 < bestMatchLen (rustLines "Line 1\nLine 2\nLine 3")
        (rustLines "Line 2\nLine 3\nLine 4\nLine 5") ∧
      extract_new_lines "Line 1\nLine 2\nLine 3" "Line 2\nLine 3\nLine 4\nLine 5"
        = "Line 4\nLine 5\n" := by
  refine ⟨by decide, ?_⟩
  have h := (extract_interior_overlap "Line 1\nLine 2\nLine 3"
    "Line 2\nLine 3\nLine 4\nLine 5" (by decide) (by decide)).1
  rw [h]
  decide

/-- Claim C8: for every `previous` and `current`, the result of
`extract_new_lines` is expressed as a suffix of the current snapshot's
line sequence — the whole of `current`, the empty string, or the lines of
`current` from some interior index onward rejoined and terminated — never
a patch that includes lines taken from the previous snapshot. -/
theorem extract_result_is_current_suffix (p c : String) :
    extract_new_lines p c = c ∨ extract_new_lines p c = "" ∨
      ∃ k, 0 < k ∧ k < (rustLines c).length ∧
        extract_new_lines p c =
          String.intercalate "\n" ((rustLines c).drop k) ++ "\n" := by
  by_cases hp : p = ""
  · left
    rw [hp]
    simp [extract_new_lines]
  · by_cases hL : rustLines p = []
    · left
      simp [extract_new_lines, hp, hL]
    · have he := extract_new_lines_eq p c hp hL
      by_cases h1 : 0 < bestMatchLen (rustLines p) (rustLines c)
      · by_cases h2 : bestMatchLen (rustLines p) (rustLines c) < (rustLines c).length
        · by_cases hj : String.intercalate "\n"
              ((rustLines c).drop (bestMatchLen (rustLines p) (rustLines c))) = ""
          · right; left
            rw [he, if_pos h1, if_pos h2, if_pos hj]
            exact hj
          · right; right
            exact ⟨bestMatchLen (rustLines p) (rustLines c), h1, h2,
              by rw [he, if_pos h1, if_pos h2, if_neg hj]⟩
        · right; left
          rw [he, if_pos h1, if_neg h2]
      · left
        rw [he, if_neg h1]

/-- Claim C1: if the persistence step fails while writing (opening the
file, writing the timestamp header or content, or forcing durability), the
persistence buffer `prebuffer` is left unadvanced — it still holds its
pre-tick value — so the same content is recomputed on the next persistence
tick; since every advance path of `save_current_captions` returns success,
the buffer only advances past content that has been durably written. -/
theorem save_failure_keeps_prebuffer (st : EngineState) (cur ts : String)
    (ops : WriteOps)
    (hfail : (save_current_captions st (some cur) ts ops).2.2 = false) :
    (save_current_captions st (some cur) ts ops).1.prebuffer = st.prebuffer ∧
      extract_new_lines (save_current_captions st (some cur) ts ops).1.prebuffer cur
        = extract_new_lines st.prebuffer cur := by
  obtain ⟨o1, o2, o3, o4, o5⟩ := ops
  by_cases hc : extract_new_lines st.prebuffer cur ≠ "" ∧
      rustTrim (extract_new_lines st.prebuffer cur) ≠ ""
  · cases o1 <;> cases o2 <;> cases o3 <;> cases o4 <;> cases o5 <;>
      simp_all [save_current_captions]
  · simp_all [save_current_captions]

theorem save_failure_keeps_prebuffer_witness :
    (save_current_captions ⟨"", "", "out.txt"⟩ (some "hello")
        "[2024-01-01][00:00:00]" ⟨true, true, true, true, false⟩).2.2 = false ∧
      (save_current_captions ⟨"", "", "out.txt"⟩ (some "hello")
        "[2024-01-01][00:00:00]" ⟨true, true, true, true, false⟩).1.prebuffer = "" :=
  ⟨by decide,
    (save_failure_keeps_prebuffer ⟨"", "", "out.txt"⟩ "hello" "[2024-01-01][00:00:00]"
      ⟨true, true, true, true, false⟩ (by decide)).1⟩

/-- Claim C2 (amended): when the external translation call fails on a
fast-cadence tick (capture having succeeded, delta non-blank), the
translation buffer is left unadvanced — it still holds its pre-tick value
— so the same content is recomputed and retried on the next tick; the
method reports the failure to its caller.  (The claim's assertion that the
buffer still advances is refuted by the counterexample: the error
propagates before the buffer assignment.) -/
theorem translate_failure_keeps_buffer (st : EngineState) (cur : String)
    (h : extract_new_lines st.translate_buffer cur ≠ "" ∧
         rustTrim (extract_new_lines st.translate_buffer cur) ≠ "") :
    (translate_new_content st (some cur) none).1.translate_buffer = st.translate_buffer ∧
      (translate_new_content st (some cur) none).2.2 = false ∧
      extract_new_lines (translate_new_content st (some cur) none).1.translate_buffer cur
        = extract_new_lines st.translate_buffer cur := by
  simp [translate_new_content, h.1, h.2]

theorem translate_failure_keeps_buffer_witness :
    (translate_new_content ⟨"", "", "out.txt"⟩ (some "hello") none).1.translate_buffer
        = "" ∧
      (translate_new_content ⟨"", "", "out.txt"⟩ (some "hello") none).2.2 = false :=
  ⟨(translate_failure_keeps_buffer ⟨"", "", "out.txt"⟩ "hello"
      ⟨by decide, by decide⟩).1,
    (translate_failure_keeps_buffer ⟨"", "", "out.txt"⟩ "hello"
      ⟨by decide, by decide⟩).2.1⟩

/-- The counterexample refuting C2 as stated: a failed translation of a
non-blank delta leaves the translation buffer at its old value instead of
advancing it to the current snapshot. -/
theorem translate_failure_advances_cex :
    extract_new_lines "" "hello" ≠ "" ∧
      rustTrim (extract_new_lines "" "hello") ≠ "" ∧
      (translate_new_content ⟨"", "", "out.txt"⟩ (some "hello") none).1.translate_buffer
        ≠ "hello" := by
  decide

/-- Claim C10: on every successful-capture tick whose computed delta is
non-empty but consists only of whitespace, nothing is appended to the
output file and nothing is sent for translation, yet the cadence's buffer
is still updated to the current snapshot — so the whitespace-only content
is dropped and, the buffer having advanced past it, is not recomputed as a
delta on any later tick. -/
theorem whitespace_delta_dropped (st : EngineState) (cur ts : String)
    (ops : WriteOps) (tr : Option String)
    (h1 : extract_new_lines st.prebuffer cur ≠ "")
    (h2 : rustTrim (extract_new_lines st.prebuffer cur) = "")
    (h3 : extract_new_lines st.translate_buffer cur ≠ "")
    (h4 : rustTrim (extract_new_lines st.translate_buffer cur) = "") :
    save_current_captions st (some cur) ts ops
        = (⟨cur, st.translate_buffer, st.sfilename⟩, [], true) ∧
      translate_new_content st (some cur) tr
        = (⟨st.prebuffer, cur, st.sfilename⟩, none, true) := by
  constructor
  · simp [save_current_captions, h2]
  · simp [translate_new_content, h4]

theorem whitespace_delta_dropped_witness :
    save_current_captions ⟨"a", "a", "out.txt"⟩ (some "a\n \n") "[ts]"
        ⟨true, true, true, true, true⟩ = (⟨"a\n \n", "a", "out.txt"⟩, [], true) ∧
      translate_new_content ⟨"a", "a", "out.txt"⟩ (some "a\n \n") none
        = (⟨"a", "a\n \n", "out.txt"⟩, none, true) :=
  whitespace_delta_dropped ⟨"a", "a", "out.txt"⟩ "a\n \n" "[ts]"
    ⟨true, true, true, true, true⟩ none (by decide) (by decide) (by decide) (by decide)

/-- Claim C9: the command-line surface accepts, besides the required output
destination path, the optional source-language code, and the optional
translation service address, an optional persistence interval in minutes
bounded to a small positive range, and an accepted interval of `m` minutes
configures the slow (persistence) cadence's tick interval to `60 * m`
seconds.  (Settled against the spec-modelled `ArgsWithInterval`, the
program variant absent from src/.) -/
theorem cli_interval_configures_slow_cadence (a : ArgsWithInterval) (m : Nat)
    (hm : a.interval = some m) (hv : intervalAccepted m = true) :
    writefileTimerSecs a = 60 * m ∧ 0 < m ∧ m ≤ intervalRangeMax := by
  refine ⟨by simp [writefileTimerSecs, hm], ?_, ?_⟩
  · simp only [intervalAccepted, Bool.and_eq_true, decide_eq_true_eq] at hv
    exact hv.1
  · simp only [intervalAccepted, Bool.and_eq_true, decide_eq_true_eq] at hv
    exact hv.2

theorem cli_interval_configures_slow_cadence_witness :
    writefileTimerSecs ⟨"captions.md", some "ja", "http://127.0.0.1:5000", some 2⟩
        = 60 * 2 ∧ 0 < 2 ∧ 2 ≤ intervalRangeMax :=
  cli_interval_configures_slow_cadence
    ⟨"captions.md", some "ja", "http://127.0.0.1:5000", some 2⟩ 2 rfl (by decide)
